import Mathlib

/-!
Verification of the git-blame extension core.

Shallow embedding of the three source components of `weedz/vscode-git-blame`:

* `parseBlame` and `getBlame` from `src/src/extension.ts`,
* `runCommand` from `src/src/run-command.ts`,
* `formatTimeAgo` from the time module (`src/unnamed/part_000`).

JavaScript strings are modelled as `List Char`; the string primitives the
source uses (`split("\n")`, `indexOf`, `substring`, `Number.parseInt`) are
embedded with their JavaScript semantics (`indexOf` returns `-1` when absent,
`substring` clamps and swaps its arguments, `parseInt` takes the longest
digit prefix and yields `NaN` — here `none` — when there is none).
JavaScript number arithmetic in the time formatter is modelled over `ℚ`;
all values the theorems touch are exactly representable, and `Math.round x`
is `⌊x + 1/2⌋` (round half toward positive infinity). `JSNum` extends this
with the `NaN` of an Invalid Date, whose comparisons are always false, so
that the reachability of the formatter's post-loop fallback is settled over
the full input domain.
-/

/-- JS `str.split("\n")` (src/src/extension.ts line 186): splits on every
newline, keeping empty segments; an empty string yields `[""]`. -/
def splitNl : List Char → List (List Char)
  | [] => [[]]
  | c :: cs =>
    match splitNl cs with
    | [] => [[]]
    | l :: ls => if c = '\n' then [] :: l :: ls else (c :: l) :: ls

/-- JS `str.indexOf(c)` for a one-character needle: 0-based index of the
first occurrence, `-1` when `c` does not occur. -/
def jsIndexOf (c : Char) : List Char → Int
  | [] => -1
  | x :: xs =>
    if x = c then 0
    else if jsIndexOf c xs = -1 then -1 else jsIndexOf c xs + 1

/-- JS `str.substring(a, b)`: both indices are clamped to `[0, length]` and
swapped when out of order, then the characters strictly between them are
returned. -/
def jsSubstring (s : List Char) (a b : Int) : List Char :=
  let n : Int := s.length
  let a2 := min (max a 0) n
  let b2 := min (max b 0) n
  (s.drop (min a2 b2).toNat).take (max a2 b2 - min a2 b2).toNat

/-- JS one-argument `str.substring(a)`, i.e. `substring(a, length)`. -/
def jsSubstringFrom (s : List Char) (a : Int) : List Char :=
  jsSubstring s a (s.length : Int)

/-- Accumulator pass turning a digit list into the value it denotes. -/
def digitsToNat : List Char → Nat → Nat
  | [], acc => acc
  | d :: ds, acc => digitsToNat ds (acc * 10 + (d.toNat - '0'.toNat))

/-- JS `Number.parseInt(s, 10)`: skip leading whitespace, read an optional
sign, then the longest prefix of decimal digits; `none` models `NaN`
(no digits at all). -/
def jsParseInt (s : List Char) : Option Int :=
  let t := s.dropWhile (fun c => c.isWhitespace)
  let core : List Char → Option Nat := fun u =>
    let ds := u.takeWhile (fun c => c.isDigit)
    if ds = [] then none else some (digitsToNat ds 0)
  match t with
  | '-' :: rest => (core rest).map (fun n => -(n : Int))
  | '+' :: rest => (core rest).map (fun n => (n : Int))
  | _ => (core t).map (fun n => (n : Int))

/-- Mirror of `BlameCommitter` (src/src/extension.ts lines 8-12). `time` is an
`Option Int`: `none` models the `NaN` that `Number.parseInt` produces on
non-numeric input. -/
structure BlameCommitter where
  name : List Char
  email : List Char
  time : Option Int
deriving DecidableEq, Repr

/-- Mirror of `BlameStruct` (src/src/extension.ts lines 14-19). -/
structure BlameStruct where
  author : BlameCommitter
  committer : BlameCommitter
  summary : List Char
  sha : List Char
deriving DecidableEq, Repr

/-- Result of `parseBlame`: a record, a returned `Error(msg)` value, or a
thrown exception (a `TypeError` from calling `.substring` on the
`undefined` produced by an out-of-range `lines[i]`). -/
inductive ParseResult where
  | ok (blame : BlameStruct)
  | err (msg : String)
  | thrown
deriving DecidableEq, Repr

/-- The all-zero 40-character sentinel revision id
`"0000000000000000000000000000000000000000"`. -/
def zeros40 : List Char := List.replicate 40 '0'

/-- Embedding of `parseBlame` (src/src/extension.ts lines 173-221), line for line:
split on newlines; take `lines[0].substring(0, lines[0].indexOf(" "))` as
the sha; return `Error("Change not committed yet")` when it is the all-zero
sentinel; otherwise read the value of lines 1, 2, 3, 5, 6, 7, 9 as the
substring after each line's first space (times through
`Number.parseInt(_, 10)`). The source indexes `lines[1]` … `lines[9]`
unguarded; when fewer than ten lines exist, `lines[9]` (or an earlier
index) is `undefined` and `.substring` on it throws — the pattern below
requiring ten list cells is exactly that access pattern, since a list
containing index 9 contains indices 1-8 as well. -/
def parseBlame (blameString : List Char) : ParseResult :=
  match splitNl blameString with
  | [] => .thrown
  | l0 :: rest =>
    let sha := jsSubstring l0 0 (jsIndexOf ' ' l0)
    if sha = zeros40 then .err "Change not committed yet"
    else
      match rest with
      | l1 :: l2 :: l3 :: _l4 :: l5 :: l6 :: l7 :: _l8 :: l9 :: _ =>
        .ok {
          author := {
            name := jsSubstringFrom l1 (jsIndexOf ' ' l1 + 1)
            email := jsSubstringFrom l2 (jsIndexOf ' ' l2 + 1)
            time := jsParseInt (jsSubstringFrom l3 (jsIndexOf ' ' l3 + 1)) }
          committer := {
            name := jsSubstringFrom l5 (jsIndexOf ' ' l5 + 1)
            email := jsSubstringFrom l6 (jsIndexOf ' ' l6 + 1)
            time := jsParseInt (jsSubstringFrom l7 (jsIndexOf ' ' l7 + 1)) }
          summary := jsSubstringFrom l9 (jsIndexOf ' ' l9 + 1)
          sha := sha }
      | _ => .thrown

/-- The sha `parseBlame` extracts from an input: line 0's substring up to
its first space, under JS `substring`/`indexOf` semantics. -/
def extractSha (s : List Char) : List Char :=
  match splitNl s with
  | [] => []
  | l0 :: _ => jsSubstring l0 0 (jsIndexOf ' ' l0)

/-- Spec-side reading of "the substring of the line up to its first space"
(meaningful when the line contains a space). -/
def firstToken (l : List Char) : List Char :=
  l.takeWhile (fun c => c ≠ ' ')

/-- Spec-side reading of "the substring after the first space on its line"
(meaningful when the line contains a space). -/
def afterFirstSpace (l : List Char) : List Char :=
  (l.dropWhile (fun c => c ≠ ' ')).tail

/-- The `Intl.RelativeTimeFormatUnit` values the time module uses
(src/unnamed/part_000 lines 5-13). -/
inductive TimeUnit where
  | seconds
  | minutes
  | hours
  | days
  | weeks
  | months
  | years
deriving DecidableEq, Repr

/-- One entry of the `DIVISIONS` table: `amount = none` models
`Number.POSITIVE_INFINITY`. -/
structure Division where
  amount : Option ℚ
  name : TimeUnit
deriving DecidableEq, Repr

/-- The `DIVISIONS` table (src/unnamed/part_000 lines 5-13); `4.34524` is
the exact rational `434524/100000`. -/
def DIVISIONS : List Division :=
  [⟨some 60, .seconds⟩, ⟨some 60, .minutes⟩, ⟨some 24, .hours⟩,
   ⟨some 7, .days⟩, ⟨some (434524 / 100000), .weeks⟩, ⟨some 12, .months⟩,
   ⟨none, .years⟩]

/-- JS `Math.round`: nearest integer, halves toward positive infinity. -/
def jsRound (q : ℚ) : Int := ⌊q + 1 / 2⌋

/-- The loop guard `Math.abs(duration) < division.amount`
(src/unnamed/part_000 line 18) restricted to finite durations, for which
the comparison against `Infinity` always holds. The full JS guard,
including the `NaN` duration of an Invalid Date for which the comparison
is false even against `Infinity`, is `matchesTierJS` below. -/
def matchesTier (d : ℚ) : Option ℚ → Bool
  | none => true
  | some a => decide (|d| < a)

/-- The `for` loop of `formatTimeAgo` (src/unnamed/part_000 lines 17-22):
stop at the first tier whose threshold exceeds `|duration|` and round there;
otherwise divide by the tier's amount and continue. `none` means the loop
ran off the table (the line-24 fallback would run). In the unreachable case
of dividing by `Infinity` JS yields `0`. -/
def formatWalk : ℚ → List Division → Option (Int × TimeUnit)
  | _, [] => none
  | d, div :: rest =>
    if matchesTier d div.amount then some (jsRound d, div.name)
    else
      match div.amount with
      | some a => formatWalk (d / a) rest
      | none => formatWalk 0 rest

/-- Same walk without the rounding: the duration already divided down to the
stopping tier's scale, paired with that tier's unit. -/
def walkScaled : ℚ → List Division → Option (ℚ × TimeUnit)
  | _, [] => none
  | d, div :: rest =>
    if matchesTier d div.amount then some (d, div.name)
    else
      match div.amount with
      | some a => walkScaled (d / a) rest
      | none => walkScaled 0 rest

/-- Embedding of `formatTimeAgo` (src/unnamed/part_000 lines 15-25) with `Date.getTime`
values (integer milliseconds) supplied for the target and for `new Date()`:
`duration = (date.getTime() - now.getTime()) / 1000`, then the division
walk; the value handed to `formatter.format` is returned as a
rounded-count/unit pair. Line 24 is the fallback after the loop. The `Int`
inputs model valid dates; `formatTimeAgoJS` below extends the embedding to
an Invalid Date, whose `getTime()` is `NaN`. -/
def formatTimeAgo (dateMs nowMs : Int) : Int × TimeUnit :=
  let duration : ℚ := ((dateMs : ℚ) - (nowMs : ℚ)) / 1000
  match formatWalk duration DIVISIONS with
  | some r => r
  | none => (jsRound duration, .seconds)

/-- A JavaScript number as the time formatter can observe it: a finite
value (an exact rational) or `NaN`. An Invalid Date's `getTime()` is
`NaN`, which this extension produces when a non-numeric time field makes
`Number.parseInt` return `NaN` and `new Date(NaN * 1000)` is formatted
(src/src/extension.ts lines 52 and 120). -/
inductive JSNum where
  | num (q : ℚ)
  | nan
deriving DecidableEq, Repr

/-- JS subtraction for `date.getTime() - new Date().getTime()`
(src/unnamed/part_000 line 16): `NaN` propagates. -/
def jsSub : JSNum → JSNum → JSNum
  | .num a, .num b => .num (a - b)
  | _, _ => .nan

/-- JS division of the running duration by a tier amount, where `none` is
`Infinity` (src/unnamed/part_000 lines 16 and 21): `NaN` propagates, and a
finite value divided by `Infinity` is `0`. -/
def jsDiv : JSNum → Option ℚ → JSNum
  | .nan, _ => .nan
  | .num q, some a => .num (q / a)
  | .num _, none => .num 0

/-- JS `Math.round` on a possibly-NaN value: `Math.round(NaN)` is `NaN`. -/
def jsRoundJS : JSNum → Option Int
  | .nan => none
  | .num q => some (jsRound q)

/-- The loop guard `Math.abs(duration) < division.amount`
(src/unnamed/part_000 line 18) with full JS comparison semantics: any
comparison with `NaN` is false, even against `Infinity`; a finite value is
always below `Infinity` and below a finite amount by the exact
comparison. -/
def matchesTierJS : JSNum → Option ℚ → Bool
  | .nan, _ => false
  | .num _, none => true
  | .num q, some a => decide (|q| < a)

/-- The `for` loop of `formatTimeAgo` (src/unnamed/part_000 lines 17-22)
over a possibly-NaN duration: `none` means the loop ran off the table and
the line-24 fallback runs. -/
def formatWalkJS : JSNum → List Division → Option (Option Int × TimeUnit)
  | _, [] => none
  | d, div :: rest =>
    if matchesTierJS d div.amount then some (jsRoundJS d, div.name)
    else formatWalkJS (jsDiv d div.amount) rest

/-- Embedding of `formatTimeAgo` (src/unnamed/part_000 lines 15-25) over
possibly-NaN `getTime` values (`JSNum.nan` models an Invalid Date).
Returns the count/unit pair handed to `formatter.format` together with a
flag that is `true` exactly when the line-24 fallback after the loop
executed. -/
def formatTimeAgoJS (dateMs nowMs : JSNum) : (Option Int × TimeUnit) × Bool :=
  let duration := jsDiv (jsSub dateMs nowMs) (some 1000)
  match formatWalkJS duration DIVISIONS with
  | some r => (r, false)
  | none => ((jsRoundJS duration, .seconds), true)

/-- An event observed by the `runCommand` promise executor
(src/src/run-command.ts lines 10-24): a stdout `data` chunk, a stderr
`data` chunk, or the process `close` event with its exit code. -/
inductive PEvent where
  | stdout (data : List Char)
  | stderr (data : List Char)
  | close (code : Option Int)
deriving DecidableEq, Repr

/-- Whether an event is the `close` event. -/
def isCloseEvent : PEvent → Bool
  | .close _ => true
  | _ => false

/-- State of one `runCommand` promise: the accumulated stdout `buffer` and
the resolution (`none` while pending; `some v` once `resolve(v)` ran, where
the inner `none` is the `undefined` sentinel). There is no rejected state:
the executor never calls `reject`. -/
structure RunState where
  buffer : List Char
  resolved : Option (Option (List Char))
deriving DecidableEq, Repr

/-- The handlers of src/src/run-command.ts lines 10-24: stdout data is
appended to the buffer, stderr data is discarded, and `close` resolves with
the buffer when non-empty and with `undefined` otherwise. A promise
resolves at most once, so a resolution is never overwritten. -/
def stepEvent (s : RunState) : PEvent → RunState
  | .stdout d => { s with buffer := s.buffer ++ d }
  | .stderr _ => s
  | .close _ =>
    match s.resolved with
    | some _ => s
    | none =>
      { s with
        resolved := some (if s.buffer.length > 0 then some s.buffer else none) }

/-- Run one `runCommand` promise over a sequence of events, starting from
the empty buffer and a pending resolution. -/
def processEvents (evts : List PEvent) : RunState :=
  evts.foldl stepEvent ⟨[], none⟩

/-- The stdout chunks of an event list, concatenated in arrival order. -/
def stdoutConcat (evts : List PEvent) : List Char :=
  (evts.map (fun e => match e with | .stdout d => d | _ => [])).flatten

/-- The effects `getBlame` performs, in program order: killing a process
with a signal, writing the shared `activeBlame` reference, spawning the
`git blame` child, and awaiting its promise. -/
inductive GitAction where
  | kill (pid : Nat) (sig : String)
  | setRef (r : Option Nat)
  | spawn (pid : Nat)
  | awaitProc (pid : Nat)
deriving DecidableEq, Repr

/-- Outcome of `getBlame`: a returned `Error(msg)` value, or the value of
`parseBlame` applied to the awaited output. -/
inductive BlameOutcome where
  | failure (msg : String)
  | parsed (r : ParseResult)
deriving DecidableEq, Repr

/-- Embedding of `getBlame` (src/src/extension.ts lines 145-171). Processes are
abstracted to ids: `active` is the current `activeBlame` reference,
`newPid` the id `spawn` returns for this call, and `output pid` what the
promise of process `pid` resolves with (`none` is the `undefined`
sentinel). Returned: the outcome, the effect trace in program order, and
the final `activeBlame`. The path guard (line 147) returns before any
process work; a live `activeBlame` is killed with `"SIGKILL"` and the
reference nulled (lines 151-154) before the spawn (line 157), the
reference is set to the new process (line 160) before the await (line
162) and nulled after it (line 164); an empty result is
`Error("Unknown error..")` (line 167), otherwise the result is parsed
(line 170). -/
def getBlameModel (path : List Char) (active : Option Nat) (newPid : Nat)
    (output : Nat → Option (List Char)) :
    BlameOutcome × List GitAction × Option Nat :=
  if path.head? ≠ some '/' then
    (.failure "Cannot blame non-existent file", [], active)
  else
    let killTrace : List GitAction :=
      match active with
      | some a => [.kill a "SIGKILL", .setRef none]
      | none => []
    let trace := killTrace ++
      [.spawn newPid, .setRef (some newPid), .awaitProc newPid, .setRef none]
    match output newPid with
    | none => (.failure "Unknown error..", trace, none)
    | some res => (.parsed (parseBlame res), trace, none)

lemma jsIndexOf_of_not_mem (c : Char) (l : List Char) (h : c ∉ l) :
    jsIndexOf c l = -1 := by
  induction l with
  | nil => rfl
  | cons x xs ih =>
    have hx : x ≠ c := by rintro rfl; exact h (List.mem_cons_self _ _)
    have hxs : c ∉ xs := fun hm => h (List.mem_cons_of_mem _ hm)
    simp [jsIndexOf, hx, ih hxs]

lemma jsIndexOf_of_mem (c : Char) (l : List Char) (h : c ∈ l) :
    jsIndexOf c l = ((l.takeWhile (fun x => x ≠ c)).length : Int) := by
  induction l with
  | nil => cases h
  | cons x xs ih =>
    by_cases hx : x = c
    · subst hx
      simp [jsIndexOf, List.takeWhile]
    · have hxs : c ∈ xs := by
        rcases List.mem_cons.1 h with h' | h'
        · exact absurd h'.symm hx
        · exact h'
      have hne : jsIndexOf c xs ≠ -1 := by
        rw [ih hxs]
        have : (0 : Int) ≤ ((xs.takeWhile (fun x => x ≠ c)).length : Int) :=
          Int.natCast_nonneg _
        omega
      simp [jsIndexOf, hx, hne, ih hxs, List.takeWhile]

lemma take_of_length_le' {α} (l : List α) (n : Nat) (h : l.length ≤ n) :
    l.take n = l := by
  induction l generalizing n with
  | nil => simp
  | cons x xs ih =>
    cases n with
    | zero => simp at h
    | succ m => simpa using ih m (by simpa using h)

lemma drop_of_length_le' {α} (l : List α) (n : Nat) (h : l.length ≤ n) :
    l.drop n = [] := by
  induction l generalizing n with
  | nil => simp
  | cons x xs ih =>
    cases n with
    | zero => simp at h
    | succ m => simpa using ih m (by simpa using h)

lemma jsSubstring_zero_of_nonneg (s : List Char) (i : Int) (h : 0 ≤ i) :
    jsSubstring s 0 i = s.take i.toNat := by
  simp only [jsSubstring]
  have ha2 : min (max (0 : Int) 0) (s.length : Int) = 0 := by omega
  have hb2 : min (max i 0) (s.length : Int) = min i (s.length : Int) := by omega
  rw [ha2, hb2]
  have hlo : min (0 : Int) (min i (s.length : Int)) = 0 := by omega
  have hhi : max (0 : Int) (min i (s.length : Int)) = min i (s.length : Int) := by omega
  rw [hlo, hhi]
  simp only [Int.toNat_zero, List.drop_zero, sub_zero]
  rcases le_or_lt i (s.length : Int) with hle | hlt
  · rw [min_eq_left hle]
  · rw [min_eq_right hlt.le]
    rw [Int.toNat_natCast, List.take_length, take_of_length_le' s i.toNat (by omega)]

lemma jsSubstringFrom_eq_drop (s : List Char) (i : Int) (h : 0 ≤ i) :
    jsSubstringFrom s i = s.drop i.toNat := by
  simp only [jsSubstringFrom, jsSubstring]
  have ha2 : min (max i 0) (s.length : Int) = min i (s.length : Int) := by omega
  have hb2 : min (max (s.length : Int) 0) (s.length : Int) = (s.length : Int) := by omega
  rw [ha2, hb2]
  have hlo : min (min i (s.length : Int)) (s.length : Int) = min i (s.length : Int) := by omega
  have hhi : max (min i (s.length : Int)) (s.length : Int) = (s.length : Int) := by omega
  rw [hlo, hhi]
  rcases le_or_lt i (s.length : Int) with hle | hlt
  · rw [min_eq_left hle]
    apply take_of_length_le'
    simp [List.length_drop]
    omega
  · rw [min_eq_right hlt.le]
    rw [Int.toNat_natCast, drop_of_length_le' s s.length le_rfl,
        drop_of_length_le' s i.toNat (by omega)]
    simp

lemma jsSubstring_zero_neg_one (s : List Char) :
    jsSubstring s 0 (-1) = [] := by
  simp only [jsSubstring]
  have ha2 : min (max (0 : Int) 0) (s.length : Int) = 0 := by omega
  have hb2 : min (max (-1 : Int) 0) (s.length : Int) = 0 := by omega
  rw [ha2, hb2]
  simp

lemma take_takeWhile_length {α} (p : α → Bool) (l : List α) :
    l.take (l.takeWhile p).length = l.takeWhile p := by
  induction l with
  | nil => simp
  | cons x xs ih =>
    by_cases hx : p x
    · simp [List.takeWhile, hx, ih]
    · simp [List.takeWhile, hx]

lemma drop_takeWhile_length_succ {α} (p : α → Bool) (l : List α) :
    l.drop ((l.takeWhile p).length + 1) = (l.dropWhile p).tail := by
  induction l with
  | nil => simp
  | cons x xs ih =>
    by_cases hx : p x
    · simp [List.takeWhile, List.dropWhile, hx, ih]
    · simp [List.takeWhile, List.dropWhile, hx]

lemma sha_extract (l : List Char) (h : ' ' ∈ l) :
    jsSubstring l 0 (jsIndexOf ' ' l) = firstToken l := by
  rw [jsIndexOf_of_mem ' ' l h,
      jsSubstring_zero_of_nonneg l _ (Int.natCast_nonneg _),
      Int.toNat_natCast, firstToken, take_takeWhile_length]

lemma value_extract (l : List Char) (h : ' ' ∈ l) :
    jsSubstringFrom l (jsIndexOf ' ' l + 1) = afterFirstSpace l := by
  rw [jsIndexOf_of_mem ' ' l h,
      jsSubstringFrom_eq_drop l _ (by positivity)]
  have : ((((l.takeWhile (fun x => x ≠ ' ')).length : Int)) + 1).toNat =
      (l.takeWhile (fun x => x ≠ ' ')).length + 1 := by omega
  rw [this, afterFirstSpace, drop_takeWhile_length_succ]

/-- C1: for every well-formed ten-line (indices 0-9) newline-separated
porcelain input whose first line's first token is not the all-zero
sentinel, `parseBlame` returns a record (not a failure) whose author and
committer names/emails and summary equal the substring after the first
space of lines 1, 2, 5, 6 and 9, whose author/committer times equal the
base-10 integer parse of the substring after the first space of lines 3
and 7, and whose sha equals line 0's substring up to its first space. -/
theorem parseBlame_wellFormed
    (s l0 l1 l2 l3 l4 l5 l6 l7 l8 l9 : List Char)
    (hsplit : splitNl s = [l0, l1, l2, l3, l4, l5, l6, l7, l8, l9])
    (h0 : ' ' ∈ l0) (h1 : ' ' ∈ l1) (h2 : ' ' ∈ l2) (h3 : ' ' ∈ l3)
    (h5 : ' ' ∈ l5) (h6 : ' ' ∈ l6) (h7 : ' ' ∈ l7) (h9 : ' ' ∈ l9)
    (hsha : firstToken l0 ≠ zeros40) :
    parseBlame s = .ok {
      author := {
        name := afterFirstSpace l1
        email := afterFirstSpace l2
        time := jsParseInt (afterFirstSpace l3) }
      committer := {
        name := afterFirstSpace l5
        email := afterFirstSpace l6
        time := jsParseInt (afterFirstSpace l7) }
      summary := afterFirstSpace l9
      sha := firstToken l0 } := by
  simp only [parseBlame, hsplit]
  rw [sha_extract l0 h0, if_neg hsha,
      value_extract l1 h1, value_extract l2 h2, value_extract l3 h3,
      value_extract l5 h5, value_extract l6 h6, value_extract l7 h7,
      value_extract l9 h9]

lemma zeros40_ne_nil : zeros40 ≠ [] := by decide

/-- C2: for every input whose first line's revisionId (the token up to the
first space, as the code extracts it) is exactly 40 zero characters,
`parseBlame` fails with the distinct "change not committed yet" condition,
regardless of the contents of the other lines. -/
theorem parseBlame_uncommitted (s : List Char)
    (h : extractSha s = zeros40) :
    parseBlame s = .err "Change not committed yet" := by
  rcases hl : splitNl s with _ | ⟨l0, rest⟩
  · rw [extractSha, hl] at h
    exact absurd h.symm zeros40_ne_nil
  · rw [extractSha, hl] at h
    simp only [parseBlame, hl]
    rw [if_pos h]

/-- C7 (amended): the failure kinds the code actually produces are returned
as values, but `parseBlame` does not return a value on every nonconforming
input: it throws exactly when the input has fewer than ten lines and its
extracted sha is not the all-zero sentinel (the unguarded `lines[i]`
accesses); on every other input it returns an `ok` record or an `err`
value. -/
theorem parseBlame_thrown_iff (s : List Char) :
    parseBlame s = .thrown ↔
      (splitNl s).length < 10 ∧ extractSha s ≠ zeros40 := by
  rcases hl : splitNl s with _ | ⟨l0, rest⟩
  · simp only [parseBlame, extractSha, hl]
    simp [zeros40_ne_nil.symm]
  · simp only [parseBlame, extractSha, hl]
    by_cases hz : jsSubstring l0 0 (jsIndexOf ' ' l0) = zeros40
    · rw [if_pos hz]
      constructor
      · intro hcontra
        exact absurd hcontra (by simp)
      · intro hcontra
        exact absurd hz hcontra.2
    · rw [if_neg hz]
      rcases rest with _ | ⟨a1, _ | ⟨a2, _ | ⟨a3, _ | ⟨a4, _ | ⟨a5, _ | ⟨a6, _ | ⟨a7, _ | ⟨a8, _ | ⟨a9, tl⟩⟩⟩⟩⟩⟩⟩⟩⟩ <;>
        simp [hz, List.length]

/-- C10: if the first line of the parser input contains no space character,
the extracted revisionId is the empty string (`substring(0, -1)`), so an
input whose first line is exactly 40 zeros with no trailing text does not
trigger the "change not committed yet" failure, and any record returned
from such input has an empty sha. -/
theorem parseBlame_noSpace (s l0 : List Char) (rest : List (List Char))
    (hsplit : splitNl s = l0 :: rest) (hns : ' ' ∉ l0) :
    extractSha s = [] ∧
    parseBlame s ≠ .err "Change not committed yet" ∧
    ∀ b, parseBlame s = .ok b → b.sha = [] := by
  have hidx : jsIndexOf ' ' l0 = -1 := jsIndexOf_of_not_mem _ _ hns
  have hsub : jsSubstring l0 0 (jsIndexOf ' ' l0) = [] := by
    rw [hidx]; exact jsSubstring_zero_neg_one l0
  have hne : jsSubstring l0 0 (jsIndexOf ' ' l0) ≠ zeros40 := by
    rw [hsub]; exact fun hc => zeros40_ne_nil hc.symm
  refine ⟨?_, ?_, ?_⟩
  · simp only [extractSha, hsplit]
    exact hsub
  · simp only [parseBlame, hsplit]
    rw [if_neg hne]
    split
    · simp
    · simp
  · intro b hb
    simp only [parseBlame, hsplit] at hb
    rw [if_neg hne] at hb
    split at hb
    · cases hb
      simpa using hsub
    · cases hb

set_option maxRecDepth 4000 in
/-- Witness for C10: ten-line input whose first line is the bare 40-zero
string. -/
theorem parseBlame_noSpace_witness :
    extractSha (zeros40 ++ ("\nauthor a\nauthor-mail b\nauthor-time 1\nz\ncommitter c\ncommitter-mail d\ncommitter-time 2\nz\nsummary e").toList) = [] ∧
    parseBlame (zeros40 ++ ("\nauthor a\nauthor-mail b\nauthor-time 1\nz\ncommitter c\ncommitter-mail d\ncommitter-time 2\nz\nsummary e").toList) ≠ .err "Change not committed yet" := by
  have h := parseBlame_noSpace
    (zeros40 ++ ("\nauthor a\nauthor-mail b\nauthor-time 1\nz\ncommitter c\ncommitter-mail d\ncommitter-time 2\nz\nsummary e").toList)
    zeros40
    ["author a".toList, "author-mail b".toList, "author-time 1".toList,
     "z".toList, "committer c".toList, "committer-mail d".toList,
     "committer-time 2".toList, "z".toList, "summary e".toList]
    (by decide) (by decide)
  exact ⟨h.1, h.2.1⟩

/-- Counterexample to C7 as stated: the one-line input `"abc"` does not
conform to the nine-line shape and `parseBlame` raises (models the JS
`TypeError` from `lines[1].substring`) instead of returning a value. -/
theorem parseBlame_short_input_throws :
    parseBlame "abc".toList = .thrown := by decide

set_option maxRecDepth 4000 in
/-- Witness for C2 at a concrete sentinel-sha input. -/
theorem parseBlame_uncommitted_witness :
    extractSha (zeros40 ++ (" 1 1 1\nauthor a").toList) = zeros40 ∧
    parseBlame (zeros40 ++ (" 1 1 1\nauthor a").toList) = .err "Change not committed yet" :=
  ⟨by decide, parseBlame_uncommitted _ (by decide)⟩

set_option maxRecDepth 4000 in
/-- Witness for C1 at a concrete ten-line porcelain input. -/
theorem parseBlame_wellFormed_witness :
    parseBlame ("abc123 1 1 1\nauthor Alice\nauthor-mail <a@x>\nauthor-time 100\nauthor-tz +0000\ncommitter Bob\ncommitter-mail <b@x>\ncommitter-time 200\ncommitter-tz +0000\nsummary hello world").toList
      = .ok {
        author := {
          name := "Alice".toList
          email := "<a@x>".toList
          time := some 100 }
        committer := {
          name := "Bob".toList
          email := "<b@x>".toList
          time := some 200 }
        summary := "hello world".toList
        sha := "abc123".toList } := by
  have h := parseBlame_wellFormed
    ("abc123 1 1 1\nauthor Alice\nauthor-mail <a@x>\nauthor-time 100\nauthor-tz +0000\ncommitter Bob\ncommitter-mail <b@x>\ncommitter-time 200\ncommitter-tz +0000\nsummary hello world").toList
    "abc123 1 1 1".toList "author Alice".toList "author-mail <a@x>".toList
    "author-time 100".toList "author-tz +0000".toList "committer Bob".toList
    "committer-mail <b@x>".toList "committer-time 200".toList
    "committer-tz +0000".toList "summary hello world".toList
    (by decide) (by decide) (by decide) (by decide) (by decide)
    (by decide) (by decide) (by decide) (by decide) (by decide)
  exact h.trans (by decide)

lemma formatWalk_stop (d q : ℚ) (u : TimeUnit) (rest : List Division)
    (h : |d| < q) : formatWalk d (⟨some q, u⟩ :: rest) = some (jsRound d, u) := by
  simp [formatWalk, matchesTier, h]

lemma formatWalk_next (d q : ℚ) (u : TimeUnit) (rest : List Division)
    (h : ¬ |d| < q) : formatWalk d (⟨some q, u⟩ :: rest) = formatWalk (d / q) rest := by
  simp [formatWalk, matchesTier, h]

lemma formatWalk_inf (d : ℚ) (u : TimeUnit) (rest : List Division) :
    formatWalk d (⟨none, u⟩ :: rest) = some (jsRound d, u) := by
  simp [formatWalk, matchesTier]

lemma formatTimeAgo_of_walk (dateMs nowMs : Int) (q : ℚ) (r : Int × TimeUnit)
    (hq : (((dateMs : ℚ)) - ((nowMs : ℚ))) / 1000 = q)
    (hw : formatWalk q DIVISIONS = some r) :
    formatTimeAgo dateMs nowMs = r := by
  show (match formatWalk ((((dateMs : ℚ)) - ((nowMs : ℚ))) / 1000) DIVISIONS with
    | some r => r
    | none => (jsRound ((((dateMs : ℚ)) - ((nowMs : ℚ))) / 1000), TimeUnit.seconds)) = r
  rw [hq, hw]

lemma formatTimeAgo_m90 : formatTimeAgo (-90000) 0 = (-1, .minutes) := by
  apply formatTimeAgo_of_walk _ _ (-90)
  · norm_num
  · rw [DIVISIONS, formatWalk_next _ _ _ _ (by rw [abs_of_nonpos (by norm_num)]; norm_num),
        show ((-90 : ℚ) / 60) = -3/2 by norm_num,
        formatWalk_stop _ _ _ _ (by rw [abs_of_nonpos (by norm_num)]; norm_num)]
    norm_num [jsRound]

lemma formatTimeAgo_p90 : formatTimeAgo 90000 0 = (2, .minutes) := by
  apply formatTimeAgo_of_walk _ _ 90
  · norm_num
  · rw [DIVISIONS, formatWalk_next _ _ _ _ (by rw [abs_of_nonneg (by norm_num)]; norm_num),
        show ((90 : ℚ) / 60) = 3/2 by norm_num,
        formatWalk_stop _ _ _ _ (by rw [abs_of_nonneg (by norm_num)]; norm_num)]
    norm_num [jsRound]

lemma formatTimeAgo_m30 : formatTimeAgo (-30000) 0 = (-30, .seconds) := by
  apply formatTimeAgo_of_walk _ _ (-30)
  · norm_num
  · rw [DIVISIONS, formatWalk_stop _ _ _ _ (by rw [abs_of_nonpos (by norm_num)]; norm_num)]
    norm_num [jsRound]

lemma formatTimeAgo_zero : formatTimeAgo 0 0 = (0, .seconds) := by
  apply formatTimeAgo_of_walk _ _ 0
  · norm_num
  · rw [DIVISIONS, formatWalk_stop _ _ _ _ (by norm_num)]
    norm_num [jsRound]

lemma formatTimeAgo_8days : formatTimeAgo (-691200000) 0 = (-1, .weeks) := by
  apply formatTimeAgo_of_walk _ _ (-691200)
  · norm_num
  · rw [DIVISIONS,
        formatWalk_next _ _ _ _ (by rw [abs_of_nonpos (by norm_num)]; norm_num),
        show ((-691200 : ℚ) / 60) = -11520 by norm_num,
        formatWalk_next _ _ _ _ (by rw [abs_of_nonpos (by norm_num)]; norm_num),
        show ((-11520 : ℚ) / 60) = -192 by norm_num,
        formatWalk_next _ _ _ _ (by rw [abs_of_nonpos (by norm_num)]; norm_num),
        show ((-192 : ℚ) / 24) = -8 by norm_num,
        formatWalk_next _ _ _ _ (by rw [abs_of_nonpos (by norm_num)]; norm_num),
        show ((-8 : ℚ) / 7) = -8/7 by norm_num,
        formatWalk_stop _ _ _ _ (by rw [abs_of_nonpos (by norm_num)]; norm_num)]
    norm_num [jsRound]

lemma formatWalk_eq_walkScaled (l : List Division) :
    ∀ d : ℚ, formatWalk d l = (walkScaled d l).map (fun p => (jsRound p.1, p.2)) := by
  induction l with
  | nil => intro d; simp [formatWalk, walkScaled]
  | cons div rest ih =>
    intro d
    obtain ⟨amt, u⟩ := div
    by_cases h : matchesTier d amt
    · simp [formatWalk, walkScaled, h]
    · rcases amt with _ | a
      · simp [matchesTier] at h
      · simp [formatWalk, walkScaled, h, ih]

lemma formatWalk_isSome_of_last_inf (l : List Division) :
    ∀ d : ℚ, (∃ u, l.getLast? = some ⟨none, u⟩) → (formatWalk d l).isSome := by
  induction l with
  | nil => intro d h; rcases h with ⟨u, hu⟩; cases hu
  | cons div rest ih =>
    intro d h
    obtain ⟨amt, u0⟩ := div
    rcases rest with _ | ⟨div2, rest2⟩
    · rcases h with ⟨u, hu⟩
      simp [List.getLast?] at hu
      rw [hu.1]
      simp [formatWalk, matchesTier]
    · have hlast : ∃ u, (div2 :: rest2).getLast? = some ⟨none, u⟩ := by
        rcases h with ⟨u, hu⟩
        rw [List.getLast?_cons_cons] at hu
        exact ⟨u, hu⟩
      by_cases hm : matchesTier d amt
      · simp [formatWalk, hm]
      · rcases amt with _ | a
        · simp [matchesTier] at hm
        · rw [formatWalk_next _ _ _ _ (by simpa [matchesTier] using hm)]
          exact ih _ hlast

/-- Counterexample to C3 as stated: a target exactly 90 seconds in the past
gives duration −1.5 minutes and `Math.round(-1.5) = -1` (ties toward
positive infinity, not away from zero), so the output denotes 1 minute
ago, not 2 minutes ago. -/
theorem formatTimeAgo_tiesAwayFromZero_counterexample :
    formatTimeAgo (-90000) 0 = (-1, .minutes) ∧
    formatTimeAgo (-90000) 0 ≠ (-2, .minutes) := by
  refine ⟨formatTimeAgo_m90, ?_⟩
  rw [formatTimeAgo_m90]
  simp

/-- C3 (amended): rounding happens only once, at the tier where the
division walk stops, on the duration already divided down to that tier's
scale (`formatWalk` is the rounding of `walkScaled`'s stopping value); the
rounding is JS `Math.round`, whose ties go toward positive infinity, so a
target exactly 90 seconds in the past yields 1 minute ago while 90
seconds in the future yields 2 minutes. -/
theorem formatTimeAgo_round_once :
    (∀ (d : ℚ) (l : List Division),
        formatWalk d l = (walkScaled d l).map (fun p => (jsRound p.1, p.2))) ∧
    formatTimeAgo (-90000) 0 = (-1, .minutes) ∧
    formatTimeAgo 90000 0 = (2, .minutes) :=
  ⟨fun d l => formatWalk_eq_walkScaled l d, formatTimeAgo_m90, formatTimeAgo_p90⟩

lemma formatWalkJS_num (l : List Division) :
    ∀ q : ℚ, formatWalkJS (.num q) l =
      (formatWalk q l).map (fun r => ((some r.1 : Option Int), r.2)) := by
  induction l with
  | nil => intro q; simp [formatWalkJS, formatWalk]
  | cons div rest ih =>
    intro q
    obtain ⟨amt, u⟩ := div
    rcases amt with _ | a
    · simp [formatWalkJS, formatWalk, matchesTierJS, matchesTier, jsRoundJS]
    · by_cases h : |q| < a
      · simp [formatWalkJS, formatWalk, matchesTierJS, matchesTier, h, jsRoundJS]
      · simp [formatWalkJS, formatWalk, matchesTierJS, matchesTier, h, jsDiv, ih]

lemma formatWalk_isSome_DIVISIONS (d : ℚ) : (formatWalk d DIVISIONS).isSome := by
  apply formatWalk_isSome_of_last_inf
  exact ⟨.years, by rw [DIVISIONS]; rfl⟩

lemma formatTimeAgoJS_num (dateMs nowMs : Int) :
    formatTimeAgoJS (.num (dateMs : ℚ)) (.num (nowMs : ℚ)) =
      ((some (formatTimeAgo dateMs nowMs).1, (formatTimeAgo dateMs nowMs).2),
       false) := by
  rcases hr : formatWalk ((((dateMs : ℚ)) - ((nowMs : ℚ))) / 1000) DIVISIONS with _ | r
  · exact absurd (hr ▸ formatWalk_isSome_DIVISIONS ((((dateMs : ℚ)) - ((nowMs : ℚ))) / 1000))
      (by simp)
  · rw [formatTimeAgo_of_walk dateMs nowMs _ r rfl hr]
    show (match formatWalkJS (jsDiv (jsSub (.num (dateMs : ℚ)) (.num (nowMs : ℚ))) (some 1000))
        DIVISIONS with
      | some p => (p, false)
      | none =>
        ((jsRoundJS (jsDiv (jsSub (.num (dateMs : ℚ)) (.num (nowMs : ℚ))) (some 1000)),
          TimeUnit.seconds), true)) = ((some r.1, r.2), false)
    rw [show jsDiv (jsSub (JSNum.num (dateMs : ℚ)) (.num (nowMs : ℚ))) (some 1000) =
          .num ((((dateMs : ℚ)) - ((nowMs : ℚ))) / 1000) from rfl,
        formatWalkJS_num DIVISIONS _, hr]
    rfl

/-- Counterexample to C6 as stated: an Invalid Date — a `NaN` time value,
which this codebase produces when a non-numeric committer-time makes
`Number.parseInt` return `NaN` and `new Date(NaN * 1000)` is formatted —
gives duration `NaN`; `Math.abs(NaN) < division.amount` is false at every
tier, including the `Infinity` tier, so the loop completes without
returning and the line-24 fallback executes. -/
theorem formatTimeAgo_fallback_counterexample :
    formatWalkJS .nan DIVISIONS = none ∧
    (formatTimeAgoJS .nan (.num 0)).2 = true :=
  ⟨rfl, rfl⟩

/-- C6 (amended): for every finite duration the division walk stops at
some tier — the final tier's unbounded threshold matches every finite
value — so for valid dates the line-24 fallback is unreachable and
`formatTimeAgo` returns the loop's value; but for a `NaN` duration
(an Invalid Date) every tier's guard is false, the loop runs off the
table, and the fallback executes. -/
theorem formatWalk_total_finite :
    (∀ q : ℚ, (formatWalkJS (.num q) DIVISIONS).isSome) ∧
    (∀ dateMs nowMs : Int,
        formatTimeAgoJS (.num (dateMs : ℚ)) (.num (nowMs : ℚ)) =
          ((some (formatTimeAgo dateMs nowMs).1,
            (formatTimeAgo dateMs nowMs).2), false)) ∧
    formatWalkJS .nan DIVISIONS = none ∧
    (formatTimeAgoJS .nan (.num 0)).2 = true := by
  refine ⟨fun q => ?_, formatTimeAgoJS_num, rfl, rfl⟩
  rw [formatWalkJS_num DIVISIONS q]
  rcases hr : formatWalk q DIVISIONS with _ | r
  · exact absurd (hr ▸ formatWalk_isSome_DIVISIONS q) (by simp)
  · simp

/-- C8: the formatter selects the coarsest applicable tier by successive
division with thresholds 60, 60, 24, 7, 4.34524, 12, infinity; a target
exactly 30 seconds in the past denotes 30 seconds ago (not rounded into
minutes), exactly 8 days in the past denotes 1 week ago, and a target
equal to now denotes 0 seconds ("now"). -/
theorem formatTimeAgo_tiers :
    DIVISIONS =
      [⟨some 60, .seconds⟩, ⟨some 60, .minutes⟩, ⟨some 24, .hours⟩,
       ⟨some 7, .days⟩, ⟨some (434524 / 100000), .weeks⟩, ⟨some 12, .months⟩,
       ⟨none, .years⟩] ∧
    formatTimeAgo (-30000) 0 = (-30, .seconds) ∧
    formatTimeAgo (-691200000) 0 = (-1, .weeks) ∧
    formatTimeAgo 0 0 = (0, .seconds) :=
  ⟨rfl, formatTimeAgo_m30, formatTimeAgo_8days, formatTimeAgo_zero⟩

lemma foldl_stepEvent_noClose (pre : List PEvent) :
    ∀ b : List Char, (∀ e ∈ pre, isCloseEvent e = false) →
      pre.foldl stepEvent ⟨b, none⟩ = ⟨b ++ stdoutConcat pre, none⟩ := by
  induction pre with
  | nil => intro b _; simp [stdoutConcat]
  | cons e rest ih =>
    intro b h
    have hrest : ∀ e ∈ rest, isCloseEvent e = false :=
      fun e he => h e (List.mem_cons_of_mem _ he)
    cases e with
    | stdout d =>
      simp only [List.foldl_cons, stepEvent, ih (b ++ d) hrest]
      simp [stdoutConcat, List.append_assoc]
    | stderr d =>
      simp only [List.foldl_cons, stepEvent, ih b hrest]
      simp [stdoutConcat]
    | close c =>
      have := h _ (List.mem_cons_self _ _)
      simp [isCloseEvent] at this

/-- C5: for every run of the process runner, when the process's `close`
event arrives the deferred result resolves with exactly the concatenation
of all stdout chunks in arrival order if that concatenation is non-empty,
and with the `undefined` sentinel (never an empty string, and the model
has no rejected state) if it is empty. -/
theorem runCommand_resolution (pre : List PEvent) (code : Option Int)
    (h : ∀ e ∈ pre, isCloseEvent e = false) :
    (processEvents (pre ++ [.close code])).resolved =
      some (if stdoutConcat pre = [] then none else some (stdoutConcat pre)) := by
  unfold processEvents
  rw [List.foldl_append, foldl_stepEvent_noClose pre [] h]
  simp only [List.nil_append, List.foldl_cons, List.foldl_nil, stepEvent]
  rcases hsc : stdoutConcat pre with _ | ⟨c, cs⟩ <;> simp

/-- Witness for C5: chunks "ab" and "c" with interleaved stderr resolve to
"abc". -/
theorem runCommand_resolution_witness :
    (processEvents ([.stdout "ab".toList, .stderr "z".toList, .stdout "c".toList] ++
        [.close (some 0)])).resolved = some (some "abc".toList) :=
  (runCommand_resolution
    [.stdout "ab".toList, .stderr "z".toList, .stdout "c".toList]
    (some 0) (by decide)).trans (by decide)

/-- C9: for every blame lookup whose document path is not an absolute
path, `getBlame` returns the descriptive `NoTrackableFile` failure before
any subprocess work: the effect trace is empty (no process spawned, no
previous process killed) and the active reference is untouched. -/
theorem getBlame_notAbsolute (path : List Char) (active : Option Nat) (newPid : Nat)
    (output : Nat → Option (List Char)) (h : path.head? ≠ some '/') :
    getBlameModel path active newPid output =
      (.failure "Cannot blame non-existent file", [], active) := by
  simp only [getBlameModel]
  rw [if_pos h]

/-- Witness for C9 at a relative path. -/
theorem getBlame_notAbsolute_witness :
    getBlameModel "foo.txt".toList (some 3) 7 (fun _ => some "x".toList) =
      (.failure "Cannot blame non-existent file", [], some 3) :=
  getBlame_notAbsolute "foo.txt".toList (some 3) 7 (fun _ => some "x".toList) (by decide)

/-- C4: if lookup B starts while lookup A's process `a` is still the active
reference, A's process is killed with the non-graceful `SIGKILL` signal
and the shared reference is cleared before B's process is awaited (the
trace is exactly kill, clear, spawn, set, await, clear); A's process is
never awaited; and B's outcome depends only on B's own process output —
A's eventual output is never returned as B's result. -/
theorem getBlame_supersedes (path : List Char) (a b : Nat)
    (f : Nat → Option (List Char)) (hpath : path.head? = some '/') (hab : a ≠ b) :
    (getBlameModel path (some a) b f).2.1 =
      [.kill a "SIGKILL", .setRef none, .spawn b, .setRef (some b),
       .awaitProc b, .setRef none] ∧
    GitAction.awaitProc a ∉ (getBlameModel path (some a) b f).2.1 ∧
    ∀ g : Nat → Option (List Char), g b = f b →
      (getBlameModel path (some a) b g).1 = (getBlameModel path (some a) b f).1 := by
  have hcond : ¬ path.head? ≠ some '/' := by simp [hpath]
  refine ⟨?_, ?_, ?_⟩
  · simp only [getBlameModel, if_neg hcond]
    rcases f b with _ | res <;> simp
  · simp only [getBlameModel, if_neg hcond]
    rcases f b with _ | res <;> simp [GitAction.awaitProc.injEq, hab, Ne.symm hab]
  · intro g hg
    simp only [getBlameModel, if_neg hcond, hg]

/-- Witness for C4: concrete supersession where the stale process 1 has
output "stale" and the result is unchanged. -/
theorem getBlame_supersedes_witness :
    (getBlameModel "/a".toList (some 1) 2 (fun _ => none)).2.1 =
      [.kill 1 "SIGKILL", .setRef none, .spawn 2, .setRef (some 2),
       .awaitProc 2, .setRef none] ∧
    (getBlameModel "/a".toList (some 1) 2
        (fun p => if p = 2 then none else some "stale".toList)).1 =
      (getBlameModel "/a".toList (some 1) 2 (fun _ => none)).1 := by
  have h := getBlame_supersedes "/a".toList 1 2 (fun _ => none) (by decide) (by decide)
  exact ⟨h.1, h.2.2 _ (by decide)⟩
